import Mathlib

/-
Shallow embedding of the AI CSV URL-finder enrichment pipeline
(src/index.tsx) and proofs of the specification's claims about it.

Rows are lists of strings; a Dataset is a list of rows whose head is the
header row.  JavaScript coercions `String(cell ?? '')` are the identity on
the string cells modelled here.  Monetary amounts are rationals.
-/

namespace AiCsvUrlFinder

/- JavaScript string primitives, modelled over the character list of a
Lean `String` (which the kernel can compute with, unlike the built-in
`String.trim`-style functions).  `Char.isWhitespace` covers the ASCII
whitespace JS trims; `Char.toLower` lowercases ASCII letters, which is all
the lowercasing the program's data requires. -/

/-- JS `s.trim()`: drop whitespace from both ends. -/
def jsTrim (s : String) : String :=
  ⟨((s.data.dropWhile Char.isWhitespace).reverse.dropWhile Char.isWhitespace).reverse⟩

/-- JS `s.toLowerCase()` on ASCII. -/
def jsToLower (s : String) : String :=
  ⟨s.data.map Char.toLower⟩

/-- JS `s.startsWith(piece)`. -/
def jsStartsWith (s piece : String) : Bool :=
  List.isPrefixOf piece.data s.data

/-- JS `s.endsWith(piece)`. -/
def jsEndsWith (s piece : String) : Bool :=
  List.isSuffixOf piece.data s.data

/-- JS `s.includes(c)` for a single character. -/
def jsContainsChar (s : String) (c : Char) : Bool :=
  s.data.contains c

/-- JS `s.substring(n)`: drop the first `n` characters. -/
def jsDrop (s : String) (n : ℕ) : String :=
  ⟨s.data.drop n⟩

/-- JS `s.slice(0, -1)`: drop the last character. -/
def jsDropLastChar (s : String) : String :=
  ⟨s.data.dropLast⟩

/-- Generic email domains, from the `GENERIC_EMAIL_DOMAINS` constant
(already lowercase, so the source's `.map(d => d.toLowerCase())` is the
identity). -/
def GENERIC_EMAIL_DOMAINS : List String :=
  ["gmail.com", "yahoo.com", "outlook.com", "aol.com", "hotmail.com",
   "icloud.com", "live.com", "msn.com", "protonmail.com", "zoho.com",
   "gmx.com", "mail.com", "yandex.com", "comcast.net", "verizon.net",
   "att.net", "sbcglobal.net", "bellsouth.net", "cox.net", "charter.net"]

/-- Embedding of `normalizeUrlForComparison` (src/index.tsx lines 114-128):
trim, lowercase, strip scheme, strip leading www., strip one trailing slash. -/
def normalizeUrlForComparison (url : String) : String :=
  let n0 := jsToLower (jsTrim url)
  let n1 :=
    if jsStartsWith n0 "http://" then jsDrop n0 7
    else if jsStartsWith n0 "https://" then jsDrop n0 8
    else n0
  let n2 := if jsStartsWith n1 "www." then jsDrop n1 4 else n1
  if jsEndsWith n2 "/" then jsDropLastChar n2 else n2

/-- Embedding of `isPlausibleUrl` (src/index.tsx lines 131-139). -/
def isPlausibleUrl (url : String) : Bool :=
  let trimmedUrl := jsTrim url
  if trimmedUrl = "" then false
  else if ¬ jsContainsChar trimmedUrl '.' then false
  else if jsContainsChar trimmedUrl '@'
      && GENERIC_EMAIL_DOMAINS.any (fun domain => jsEndsWith trimmedUrl domain) then false
  else if GENERIC_EMAIL_DOMAINS.any
      (fun domain => normalizeUrlForComparison trimmedUrl = domain) then false
  else true

/-- The placeholder strings of `cleanAiNotFoundResponses`
(src/index.tsx lines 87-95); already lowercase. -/
def notFoundPlaceholders : List String :=
  ["url_not_found", "no official website found", "not found", "n/a", "null",
   "undefined",
   "insufficient specific information available on the website to generate a detailed analytical profile for referral matchmaking."]

/-- The per-data-row step of `cleanAiNotFoundResponses`: on rows with more
than 2 cells, blank cell 2 when its trimmed, lowercased value is one of the
placeholders (and is nonempty after trim). -/
def cleanNotFoundCell (row : List String) : List String :=
  if 2 < row.length then
    if jsTrim (row.getD 2 "") ≠ "" ∧ jsToLower (jsTrim (row.getD 2 "")) ∈ notFoundPlaceholders then
      row.set 2 ""
    else row
  else row

/-- Embedding of `cleanAiNotFoundResponses` (src/index.tsx lines 84-111):
the header row (index 0) is copied unchanged, each later row is cleaned. -/
def cleanAiNotFoundResponses (data : List (List String)) : List (List String) :=
  match data with
  | [] => []
  | header :: rows => header :: rows.map cleanNotFoundCell

/-- Condition under which `cleanAiNotFoundResponses` blanks cell 2 of a row. -/
def shouldBlankUrlCell (row : List String) : Prop :=
  2 < row.length ∧ jsTrim (row.getD 2 "") ≠ ""
    ∧ jsToLower (jsTrim (row.getD 2 "")) ∈ notFoundPlaceholders

instance (row : List String) : Decidable (shouldBlankUrlCell row) := by
  unfold shouldBlankUrlCell; infer_instance

/- Pricing constants (src/index.tsx lines 24-31), as exact rationals. -/

def FLASH_PRICE_INPUT_PER_MILLION_TOKENS : ℚ := 0.15
def FLASH_PRICE_OUTPUT_THINKING_PER_MILLION_TOKENS : ℚ := 3.50
def FLASH_PRICE_GROUNDING_PER_THOUSAND_REQUESTS_AFTER_FREE_TIER : ℚ := 35
def FLASH_FREE_GROUNDING_REQUESTS_PER_DAY : ℕ := 1500
def PRO_PRICE_INPUT_PER_MILLION_TOKENS : ℚ := 1.25
def PRO_PRICE_OUTPUT_PER_MILLION_TOKENS : ℚ := 10.00

inductive ModelType
  | flash
  | pro
deriving DecidableEq

/-- Embedding of `calculateOperationCost` (src/index.tsx lines 333-345).
The `apiRequests` argument is accepted but unused, exactly as in the source:
" Grounding cost is handled cumulatively for now, as it's per day." -/
def calculateOperationCost (inputTokens outputTokens apiRequests : ℕ)
    (modelType : ModelType) : ℚ :=
  match modelType with
  | .flash =>
      (inputTokens : ℚ) / 1000000 * FLASH_PRICE_INPUT_PER_MILLION_TOKENS
        + (outputTokens : ℚ) / 1000000 * FLASH_PRICE_OUTPUT_THINKING_PER_MILLION_TOKENS
  | .pro =>
      (inputTokens : ℚ) / 1000000 * PRO_PRICE_INPUT_PER_MILLION_TOKENS
        + (outputTokens : ℚ) / 1000000 * PRO_PRICE_OUTPUT_PER_MILLION_TOKENS

/-- The cost formula claim C6 asserts for the flash model, written from the
spec's words (input + output + grounding on the operation's own request
count), for comparison with `calculateOperationCost`. -/
def claimedFlashOperationCost (inputTokens outputTokens apiRequests : ℕ) : ℚ :=
  (inputTokens : ℚ) / 1000000 * 0.15
    + (outputTokens : ℚ) / 1000000 * 3.50
    + max 0 ((apiRequests : ℚ) - 1500) / 1000 * 35

/-- Embedding of the cost computation of `handleEstimateFullAiRunCost`
(src/index.tsx lines 1420-1433): input-token cost plus a grounding cost
computed against the session-cumulative request count `totalApiRequestsMade`. -/
def estimateUrlRunCost (totalEstimatedInputTokens : ℕ)
    (totalApiRequestsMade totalEstimatedApiRequests : ℕ) : ℚ :=
  let inputCost :=
    (totalEstimatedInputTokens : ℚ) / 1000000 * FLASH_PRICE_INPUT_PER_MILLION_TOKENS
  let potentialTotalRequests := totalApiRequestsMade + totalEstimatedApiRequests
  let groundingCost :=
    if FLASH_FREE_GROUNDING_REQUESTS_PER_DAY < potentialTotalRequests then
      let billableRequests : ℤ :=
        max 0 ((potentialTotalRequests : ℤ) - (FLASH_FREE_GROUNDING_REQUESTS_PER_DAY : ℤ))
          - max 0 ((totalApiRequestsMade : ℤ) - (FLASH_FREE_GROUNDING_REQUESTS_PER_DAY : ℤ))
      if 0 < billableRequests then
        (billableRequests : ℚ) / 1000 * FLASH_PRICE_GROUNDING_PER_THOUSAND_REQUESTS_AFTER_FREE_TIER
      else 0
    else 0
  inputCost + groundingCost

/- Batch orchestrator of `handleFindUrlsWithAi` (src/index.tsx lines 1230-1353). -/

def BATCH_SIZE : ℕ := 20
def MAX_RETRIES : ℕ := 3

/-- One submit attempt of a batch, as seen by the orchestrator:
`transportFail` means `generateContent` itself threw (network/timeout),
before the request counter line is reached; `badResponse` means the call
returned but the response was unusable before a JSON array of rows could be
parsed (missing `text`, fence/JSON failure); `parsed rows` means the
response text parsed as the given array of rows (which may still fail the
row-count check). -/
inductive AttemptOutcome
  | transportFail
  | badResponse
  | parsed (rows : List (List String))

/-- The rows of a batch chunk that need AI lookup, with their index inside
the chunk (src/index.tsx line 1253): those whose cell 2 fails
`isPlausibleUrl`. -/
def itemsRequiringAiLookup (chunk : List (List String)) : List (ℕ × List String) :=
  chunk.enum.filter (fun item => ! isPlausibleUrl (item.2.getD 2 ""))

/-- Pad a row with empty cells until it has at least 3 cells
(the `while (... .length < 3) push('')` of src/index.tsx line 1317). -/
def padRowToUrlWidth (row : List String) : List String :=
  row ++ List.replicate (3 - row.length) ""

/-- Overwrite cell 2 (the URL column) of a row, padding first. -/
def setUrlCell (row : List String) (url : String) : List String :=
  (padRowToUrlWidth row).set 2 url

/-- Scatter the AI-returned rows back onto the chunk (src/index.tsx
line 1317): the k-th AI row updates cell 2 of the chunk row recorded in the
k-th lookup item, with the string at index 2 of the AI row (empty when
absent). -/
def mergeAiRowsIntoChunk (chunk : List (List String))
    (items : List (ℕ × List String)) (aiRows : List (List String)) :
    List (List String) :=
  (items.zip aiRows).foldl
    (fun acc p => acc.set p.1.1 (setUrlCell (acc.getD p.1.1 []) (p.2.getD 2 "")))
    chunk

/-- The post-parse half of a successful attempt (src/index.tsx lines
1313-1318): clean the parsed response, drop its header row (the source only
drops it when the request's header row is nonempty), check the row count
against the lookup items, and merge. `none` is a failed attempt. -/
def attemptMergeResult (headerRow : List String) (chunk : List (List String))
    (items : List (ℕ × List String)) (parsedRows : List (List String)) :
    Option (List (List String)) :=
  let cleaned := cleanAiNotFoundResponses parsedRows
  let aiProcessedRowsOnly := if 0 < headerRow.length then cleaned.drop 1 else cleaned
  if aiProcessedRowsOnly.length = items.length then
    some (mergeAiRowsIntoChunk chunk items aiProcessedRowsOnly)
  else none

/-- Whether an attempt's `generateContent` call returned (so that control
reaches the request-counting line at src/index.tsx line 1283). -/
def attemptReturns : AttemptOutcome → Bool
  | .transportFail => false
  | .badResponse => true
  | .parsed _ => true

/-- The merged chunk an attempt produces on success, `none` on any failure. -/
def attemptSuccess (headerRow : List String) (chunk : List (List String))
    (items : List (ℕ × List String)) : AttemptOutcome → Option (List (List String))
  | .parsed rows => attemptMergeResult headerRow chunk items rows
  | _ => none

/-- Result of the per-batch retry loop: how much `apiRequests` grew, how
many `generateContent` calls were made, and the merged rows on success. -/
structure RetryLoopResult where
  requests : ℕ
  attempts : ℕ
  merged : Option (List (List String))
deriving DecidableEq

/-- The retry loop of src/index.tsx lines 1273-1334.  `sched k` is the
outcome of the attempt with `retries = k`.  The request counter grows after
a returning call when `retries = 0` and not already counted (line 1283),
and once more on exhaustion if never counted (line 1328); `fuel` starts at
`MAX_RETRIES + 1`, the maximum number of loop iterations. -/
def attemptLoop (headerRow : List String) (chunk : List (List String))
    (items : List (ℕ × List String)) (sched : ℕ → AttemptOutcome) :
    ℕ → ℕ → Bool → RetryLoopResult
  | 0, _, _ => ⟨0, 0, none⟩
  | fuel + 1, retries, made =>
    let o := sched retries
    let reqHere : ℕ :=
      if made = false ∧ retries = 0 ∧ attemptReturns o = true then 1 else 0
    let madeAfter : Bool := made || (attemptReturns o && decide (retries = 0))
    match attemptSuccess headerRow chunk items o with
    | some mergedChunk => ⟨reqHere, 1, some mergedChunk⟩
    | none =>
      if MAX_RETRIES < retries + 1 then
        ⟨reqHere
            + (if madeAfter = false ∧ retries + 1 = MAX_RETRIES + 1 then 1 else 0),
          1, none⟩
      else
        let rest := attemptLoop headerRow chunk items sched fuel (retries + 1) madeAfter
        ⟨reqHere + rest.requests, rest.attempts + 1, rest.merged⟩

/-- What one batch contributes to the run (src/index.tsx lines 1245-1338):
the rows appended to `allProcessedDataRows`, the growth of the request
counter, the number of `generateContent` calls, and the entries appended to
the skipped-batch list. -/
structure BatchOutcome where
  outRows : List (List String)
  requests : ℕ
  attempts : ℕ
  skipped : List ℕ
deriving DecidableEq

/-- Process one batch chunk: a chunk whose every row already has a
plausible URL bypasses the AI entirely (src/index.tsx lines 1255-1257);
otherwise the retry loop runs, and on exhaustion the original chunk is
appended and the batch number recorded as skipped (lines 1324-1331). -/
def processBatch (headerRow : List String) (chunk : List (List String))
    (sched : ℕ → AttemptOutcome) (batchDisplayNum : ℕ) : BatchOutcome :=
  let items := itemsRequiringAiLookup chunk
  if items.isEmpty then ⟨chunk, 0, 0, []⟩
  else
    let r := attemptLoop headerRow chunk items sched (MAX_RETRIES + 1) 0 false
    match r.merged with
    | some mergedChunk => ⟨mergedChunk, r.requests, r.attempts, []⟩
    | none => ⟨chunk, r.requests, r.attempts, [batchDisplayNum]⟩

/-- Accumulated result of the whole URL-finding run over the data rows. -/
structure UrlRunResult where
  outRows : List (List String)
  requests : ℕ
  attempts : ℕ
  skipped : List ℕ
  submits : ℕ
deriving DecidableEq

/-- The batch loop of src/index.tsx lines 1245-1339: slice the data rows
into consecutive chunks of `BATCH_SIZE`, process each in order, and append
each batch's rows to the accumulator.  `sched i k` is the outcome of
attempt `k` of batch index `i`; `submits` counts the batches that made at
least one `generateContent` call. -/
def runUrlBatches (headerRow : List String) (sched : ℕ → ℕ → AttemptOutcome) :
    ℕ → List (List String) → UrlRunResult
  | _, [] => ⟨[], 0, 0, [], 0⟩
  | batchIdx, row :: rest0 =>
    let chunk := (row :: rest0).take BATCH_SIZE
    let rest := (row :: rest0).drop BATCH_SIZE
    let b := processBatch headerRow chunk (sched batchIdx) (batchIdx + 1)
    let r := runUrlBatches headerRow sched (batchIdx + 1) rest
    ⟨b.outRows ++ r.outRows, b.requests + r.requests, b.attempts + r.attempts,
      b.skipped ++ r.skipped, (if 0 < b.attempts then 1 else 0) + r.submits⟩
termination_by _ rows => rows.length
decreasing_by
  simp only [List.length_drop, List.length_cons, BATCH_SIZE]
  omega

/-- Top level of `handleFindUrlsWithAi`: reject datasets with fewer than 2
rows (src/index.tsx line 1233), then run the batches over the data rows and
re-attach the header. -/
def handleFindUrlsWithAi (data : List (List String))
    (sched : ℕ → ℕ → AttemptOutcome) :
    Option (List (List String) × UrlRunResult) :=
  if data.length < 2 then none
  else
    let headerRow := data.headD []
    let r := runUrlBatches headerRow sched 0 data.tail
    some (headerRow :: r.outRows, r)

/-- The estimated API request count of `handleEstimateFullAiRunCost`
(src/index.tsx lines 1392-1401): one request per `BATCH_SIZE`-chunk of the
data rows in which at least one row's cell 2 fails `isPlausibleUrl`. -/
def estimateUrlRunApiRequests : List (List String) → ℕ
  | [] => 0
  | row :: rest0 =>
    let currentChunk := (row :: rest0).take BATCH_SIZE
    let rest := (row :: rest0).drop BATCH_SIZE
    (if 0 < (currentChunk.filter (fun r => ! isPlausibleUrl (r.getD 2 ""))).length
      then 1 else 0) + estimateUrlRunApiRequests rest
termination_by rows => rows.length
decreasing_by
  simp only [List.length_drop, List.length_cons, BATCH_SIZE]
  omega

/-- The count claim C7 describes in its own words: the number of
`BATCH_SIZE`-chunks of the data rows containing at least one row needing
lookup. -/
def countBatchesNeedingLookup : List (List String) → ℕ
  | [] => 0
  | row :: rest0 =>
    (if ((row :: rest0).take BATCH_SIZE).any (fun r => ! isPlausibleUrl (r.getD 2 ""))
      then 1 else 0)
      + countBatchesNeedingLookup ((row :: rest0).drop BATCH_SIZE)
termination_by rows => rows.length
decreasing_by
  simp only [List.length_drop, List.length_cons, BATCH_SIZE]
  omega

/- Dossier generation of `handleGenerateFullDescriptions`
(src/index.tsx lines 1158-1228). -/

inductive OpStatus
  | idle
  | estimatingInput
  | running
  | completed
  | error
deriving DecidableEq

def DESCRIPTION_COL_INDEX : ℕ := 63

/-- Pad a row with empty cells up to the given length
(the `while (... .length <= DESCRIPTION_COL_INDEX) push('')` of
src/index.tsx line 1203). -/
def padRowToLen (row : List String) (len : ℕ) : List String :=
  row ++ List.replicate (len - row.length) ""

/-- The per-row loop of `handleGenerateFullDescriptions` (src/index.tsx
lines 1176-1218).  `gen i` abstracts the dossier generator's result for the
data row at index `i`: `some text` writes the text into column 63, `none`
(a thrown error) leaves the row unchanged.  A row whose trimmed cell 0 (the
organization name) is empty is skipped before any AI work (line 1187).
Returns the processed rows and the indices of rows for which the generator
was invoked. -/
def runDossierRows (gen : ℕ → Option String) :
    ℕ → List (List String) → List (List String) × List ℕ
  | _, [] => ([], [])
  | i, row :: rest =>
    let tailResult := runDossierRows gen (i + 1) rest
    if jsTrim (row.getD 0 "") = "" then (row :: tailResult.1, tailResult.2)
    else
      match gen i with
      | some newDescription =>
          ((padRowToLen row (DESCRIPTION_COL_INDEX + 1)).set DESCRIPTION_COL_INDEX
              newDescription :: tailResult.1,
            i :: tailResult.2)
      | none => (row :: tailResult.1, i :: tailResult.2)

/-- Top level of `handleGenerateFullDescriptions`: datasets with fewer than
2 rows are rejected up front (line 1163); otherwise every data row is
processed and the final status is unconditionally `completed`
(line 1220).  Returns the final dataset, the final status, and the indices
of rows for which the generator was invoked. -/
def handleGenerateFullDescriptions (data : List (List String))
    (gen : ℕ → Option String) :
    Option (List (List String) × OpStatus × List ℕ) :=
  if data.length < 2 then none
  else
    let headerRow := data.headD []
    let r := runDossierRows gen 0 data.tail
    some (headerRow :: r.1, OpStatus.completed, r.2)

/- Relations used to state the order-preservation and frame claims. -/

/-- Two rows agree on every cell except possibly the URL cell (index 2),
reading absent cells as empty strings. -/
def agreesOffUrl (r r' : List String) : Prop :=
  ∀ j, j ≠ 2 → r'.getD j "" = r.getD j ""

/-- A processed row list has the same length as the original and each row
agrees with the original row at the same position off the URL column. -/
def chunkAgrees (c c' : List (List String)) : Prop :=
  c'.length = c.length ∧ ∀ i, agreesOffUrl (c.getD i []) (c'.getD i [])

/-- Frame specification of the merge step, for claim C10: lengths are
preserved; rows not selected for lookup are returned verbatim; the row of
the k-th lookup item gets exactly the k-th AI row's cell 2 written into its
(padded) URL cell; and no cell outside column 2 changes anywhere. -/
def mergeFrameSpec (chunk aiRows : List (List String)) : Prop :=
  (mergeAiRowsIntoChunk chunk (itemsRequiringAiLookup chunk) aiRows).length
      = chunk.length
  ∧ (∀ i, i ∉ (itemsRequiringAiLookup chunk).map Prod.fst →
      (mergeAiRowsIntoChunk chunk (itemsRequiringAiLookup chunk) aiRows).getD i []
        = chunk.getD i [])
  ∧ (∀ k, k < (itemsRequiringAiLookup chunk).length →
      (mergeAiRowsIntoChunk chunk (itemsRequiringAiLookup chunk) aiRows).getD
          ((itemsRequiringAiLookup chunk).getD k (0, [])).1 []
        = setUrlCell
            (chunk.getD ((itemsRequiringAiLookup chunk).getD k (0, [])).1 [])
            ((aiRows.getD k []).getD 2 ""))
  ∧ (∀ i j, j ≠ 2 →
      ((mergeAiRowsIntoChunk chunk (itemsRequiringAiLookup chunk) aiRows).getD i []).getD j ""
        = (chunk.getD i []).getD j "")

/- Helper lemmas about list indexing. -/

theorem getD_set {α : Type} (l : List α) (i j : ℕ) (a d : α) :
    (l.set i a).getD j d = if i = j ∧ j < l.length then a else l.getD j d := by
  induction l generalizing i j with
  | nil => simp
  | cons x xs ih =>
    cases i with
    | zero =>
      cases j with
      | zero => simp
      | succ j' => simp
    | succ i' =>
      cases j with
      | zero => simp
      | succ j' =>
        simp only [List.set_cons_succ, List.getD_cons_succ, List.length_cons, ih]
        by_cases h : i' = j' ∧ j' < xs.length
        · rw [if_pos h, if_pos (by omega)]
        · rw [if_neg h, if_neg (by omega)]

theorem getD_default_of_le {α : Type} (l : List α) (n : ℕ) (d : α)
    (h : l.length ≤ n) : l.getD n d = d := by
  induction l generalizing n with
  | nil => simp
  | cons x xs ih =>
    cases n with
    | zero => simp at h
    | succ n' => simpa using ih n' (by simpa using h)

theorem getD_replicate_self {α : Type} (m k : ℕ) (a : α) :
    (List.replicate m a).getD k a = a := by
  induction m generalizing k with
  | zero => simp
  | succ m ih => cases k <;> simp [List.replicate_succ, ih]

theorem padRowToUrlWidth_getD (row : List String) (j : ℕ) :
    (padRowToUrlWidth row).getD j "" = row.getD j "" := by
  unfold padRowToUrlWidth
  by_cases h : j < row.length
  · exact List.getD_append _ _ _ _ h
  · rw [List.getD_append_right _ _ _ _ (by omega), getD_replicate_self,
      getD_default_of_le _ _ _ (by omega)]

theorem setUrlCell_getD_ne (row : List String) (u : String) (j : ℕ) (h : j ≠ 2) :
    (setUrlCell row u).getD j "" = row.getD j "" := by
  unfold setUrlCell
  rw [getD_set, if_neg (by omega), padRowToUrlWidth_getD]

/- Lemmas about the Response Cleaner. -/

theorem cleanNotFoundCell_eq (row : List String) :
    cleanNotFoundCell row
      = if shouldBlankUrlCell row then row.set 2 "" else row := by
  unfold cleanNotFoundCell
  by_cases h1 : 2 < row.length
  · rw [if_pos h1]
    by_cases h2 : jsTrim (row.getD 2 "") ≠ "" ∧ jsToLower (jsTrim (row.getD 2 "")) ∈ notFoundPlaceholders
    · rw [if_pos h2, if_pos ⟨h1, h2.1, h2.2⟩]
    · rw [if_neg h2, if_neg (fun hc => h2 ⟨hc.2.1, hc.2.2⟩)]
  · rw [if_neg h1, if_neg (fun hc => h1 hc.1)]

theorem cleanNotFoundCell_length (row : List String) :
    (cleanNotFoundCell row).length = row.length := by
  rw [cleanNotFoundCell_eq]
  by_cases hb : shouldBlankUrlCell row
  · rw [if_pos hb, List.length_set]
  · rw [if_neg hb]

theorem cleanNotFoundCell_getD (row : List String) (j : ℕ) :
    (cleanNotFoundCell row).getD j ""
      = if shouldBlankUrlCell row ∧ j = 2 then "" else row.getD j "" := by
  rw [cleanNotFoundCell_eq]
  by_cases hb : shouldBlankUrlCell row
  · rw [if_pos hb, getD_set]
    by_cases hj : j = 2
    · subst hj
      rw [if_pos ⟨rfl, hb.1⟩, if_pos ⟨hb, rfl⟩]
    · rw [if_neg (by omega), if_neg (fun hc => hj hc.2)]
  · rw [if_neg hb, if_neg (fun hc => hb hc.1)]

theorem getD_map_cleanNotFoundCell :
    ∀ (rows : List (List String)) (k : ℕ),
      (rows.map cleanNotFoundCell).getD k [] = cleanNotFoundCell (rows.getD k [])
  | [], k => by cases k <;> rfl
  | _ :: _, 0 => rfl
  | _ :: rs, (k + 1) => by
      simpa using getD_map_cleanNotFoundCell rs k

theorem cleanNotFoundCell_idem (row : List String) :
    cleanNotFoundCell (cleanNotFoundCell row) = cleanNotFoundCell row := by
  rw [cleanNotFoundCell_eq row, cleanNotFoundCell_eq]
  by_cases hb : shouldBlankUrlCell row
  · rw [if_pos hb]
    have e : (row.set 2 "").getD 2 "" = "" := by
      rw [getD_set, if_pos ⟨rfl, hb.1⟩]
    rw [if_neg (fun hc => hc.2.1 (by rw [e]; rfl))]
  · rw [if_neg hb, if_neg hb]

/-- Claim C9: `isPlausibleUrl` is a pure, total function of its string
argument (it is a Lean function, hence deterministic and total by
construction), and its value on the four reference inputs is as the
specification states: generic email domains and the empty string are
rejected, ordinary domains are accepted, and email addresses at generic
domains are rejected. -/
theorem c9_isPlausibleUrl_reference_values :
    isPlausibleUrl "gmail.com" = false
    ∧ isPlausibleUrl "example.com" = true
    ∧ isPlausibleUrl "" = false
    ∧ isPlausibleUrl "user@gmail.com" = false := by
  decide

/-- Claim C8: the Response Cleaner is idempotent; it never changes the
length of the row list nor of any row; and a cell changes only when it is
cell 2 of a data row (index at least 1) whose trimmed, lowercased value
exactly equals one of the placeholders — in that case it becomes the empty
string — every other cell being returned verbatim (so partial or substring
matches never trigger cleaning). -/
theorem c8_cleaner_idempotent_and_frame :
    ∀ data : List (List String),
      cleanAiNotFoundResponses (cleanAiNotFoundResponses data)
          = cleanAiNotFoundResponses data
      ∧ (cleanAiNotFoundResponses data).length = data.length
      ∧ (∀ i, ((cleanAiNotFoundResponses data).getD i []).length
          = (data.getD i []).length)
      ∧ (∀ i j, ((cleanAiNotFoundResponses data).getD i []).getD j ""
          = if i ≠ 0 ∧ shouldBlankUrlCell (data.getD i []) ∧ j = 2 then ""
            else (data.getD i []).getD j "") := by
  intro data
  cases data with
  | nil =>
    refine ⟨rfl, rfl, fun i => rfl, fun i j => ?_⟩
    rw [if_neg ?_]
    · rfl
    · rintro ⟨-, hb, -⟩
      exact absurd hb.1 (by simp [cleanAiNotFoundResponses])
  | cons header rows =>
    refine ⟨?_, ?_, ?_, ?_⟩
    · simp only [cleanAiNotFoundResponses, List.map_map]
      exact congrArg _ (List.map_congr_left fun r _ => cleanNotFoundCell_idem r)
    · simp [cleanAiNotFoundResponses]
    · intro i
      cases i with
      | zero => simp [cleanAiNotFoundResponses]
      | succ k =>
        simp only [cleanAiNotFoundResponses, List.getD_cons_succ]
        rw [getD_map_cleanNotFoundCell]
        exact cleanNotFoundCell_length _
    · intro i j
      cases i with
      | zero =>
        simp only [cleanAiNotFoundResponses, List.getD_cons_zero]
        rw [if_neg (by simp)]
      | succ k =>
        simp only [cleanAiNotFoundResponses, List.getD_cons_succ]
        rw [getD_map_cleanNotFoundCell, cleanNotFoundCell_getD]
        by_cases h : shouldBlankUrlCell (rows.getD k []) ∧ j = 2
        · rw [if_pos h, if_pos ⟨Nat.succ_ne_zero k, h.1, h.2⟩]
        · rw [if_neg h, if_neg (by exact fun hc => h ⟨hc.2.1, hc.2.2⟩)]

/-- Claim C6 counterexample: at 2000 requests the operation-level cost
function of the code returns 0.15 and 3.50 weighted token costs only
(here 0), while the claimed formula adds a grounding term of 17.5 dollars;
`calculateOperationCost` simply has no grounding term. -/
theorem c6_counterexample_no_grounding_term :
    calculateOperationCost 0 0 2000 ModelType.flash
      ≠ claimedFlashOperationCost 0 0 2000 := by
  simp only [calculateOperationCost, claimedFlashOperationCost,
    FLASH_PRICE_INPUT_PER_MILLION_TOKENS,
    FLASH_PRICE_OUTPUT_THINKING_PER_MILLION_TOKENS]
  rw [show ((2000 : ℕ) : ℚ) - 1500 = 500 by norm_num,
    max_eq_right (by norm_num : (0 : ℚ) ≤ 500)]
  norm_num

/-- Claim C6 as amended: for the flash model `calculateOperationCost` is
input and output token cost only — it is independent of its `apiRequests`
argument and has no grounding term.  The grounding price appears only in
the pre-run estimator `estimateUrlRunCost`, and there it is billed against
the session-cumulative request count: the billable quantity is
`max 0 (session + estimated - 1500) - max 0 (session - 1500)`. -/
theorem c6_amended_cost_structure :
    (∀ i o r r' : ℕ,
      calculateOperationCost i o r ModelType.flash
        = calculateOperationCost i o r' ModelType.flash)
    ∧ (∀ i o r : ℕ,
      calculateOperationCost i o r ModelType.flash
        = (i : ℚ) / 1000000 * 0.15 + (o : ℚ) / 1000000 * 3.50)
    ∧ (∀ t s e : ℕ,
      estimateUrlRunCost t s e
        = (t : ℚ) / 1000000 * 0.15
          + ((max 0 ((s : ℤ) + (e : ℤ) - 1500) - max 0 ((s : ℤ) - 1500) : ℤ) : ℚ)
            / 1000 * 35) := by
  refine ⟨fun i o r r' => rfl, fun i o r => rfl, fun t s e => ?_⟩
  simp only [estimateUrlRunCost, FLASH_FREE_GROUNDING_REQUESTS_PER_DAY,
    FLASH_PRICE_INPUT_PER_MILLION_TOKENS,
    FLASH_PRICE_GROUNDING_PER_THOUSAND_REQUESTS_AFTER_FREE_TIER, Nat.cast_ofNat]
  have hcast : ((s + e : ℕ) : ℤ) = (s : ℤ) + (e : ℤ) := by push_cast; ring
  rw [hcast]
  have hmono : max 0 ((s : ℤ) - 1500) ≤ max 0 ((s : ℤ) + (e : ℤ) - 1500) :=
    max_le_max le_rfl (by omega)
  by_cases h : 1500 < s + e
  · rw [if_pos h]
    by_cases h2 : 0 < max 0 ((s : ℤ) + (e : ℤ) - 1500) - max 0 ((s : ℤ) - 1500)
    · rw [if_pos h2]
    · have hzero : max 0 ((s : ℤ) + (e : ℤ) - 1500) - max 0 ((s : ℤ) - 1500) = 0 := by
        omega
      rw [if_neg h2, hzero]
      norm_num
  · rw [if_neg h]
    have ha : max 0 ((s : ℤ) + (e : ℤ) - 1500) = 0 := by
      rw [max_eq_left]
      omega
    have hb : max 0 ((s : ℤ) - 1500) = 0 := by
      rw [max_eq_left]
      omega
    rw [ha, hb]
    norm_num

/-- Claim C1 (evidence for the code bug): the request counter of
`handleFindUrlsWithAi` is incremented only after a `generateContent` call
that returns while `retries` is 0.  For a batch that needs lookup, a clean
first-attempt success and a fully exhausted batch each count exactly 1, but
a batch whose first attempt throws in transport and whose second attempt
succeeds counts 0 — contradicting the claim (and the code's own comment
that a successful batch counts once). -/
theorem c1_request_counter_bug :
    processBatch ["Name", "Email", "URL"] [["Acme", "e", ""]]
        (fun k => if k = 0 then AttemptOutcome.transportFail
          else AttemptOutcome.parsed [["Name", "Email", "URL"], ["Acme", "e", "acme.com"]]) 1
      = ⟨[["Acme", "e", "acme.com"]], 0, 2, []⟩
    ∧ (processBatch ["Name", "Email", "URL"] [["Acme", "e", ""]]
        (fun _ => AttemptOutcome.parsed [["Name", "Email", "URL"], ["Acme", "e", "acme.com"]]) 1).requests
      = 1
    ∧ (processBatch ["Name", "Email", "URL"] [["Acme", "e", ""]]
        (fun _ => AttemptOutcome.transportFail) 1).requests = 1 := by
  decide

/-- Under a schedule on which every attempt fails, the retry loop runs for
exactly its full fuel, one `generateContent` call per iteration, and ends
without a merged result. -/
theorem attemptLoop_all_fail (headerRow : List String) (chunk : List (List String))
    (items : List (ℕ × List String)) (sched : ℕ → AttemptOutcome) :
    ∀ (fuel retries : ℕ) (made : Bool),
    retries + fuel = MAX_RETRIES + 1 →
    (∀ k, k < MAX_RETRIES + 1 →
      attemptSuccess headerRow chunk items (sched k) = none) →
    (attemptLoop headerRow chunk items sched fuel retries made).attempts = fuel
    ∧ (attemptLoop headerRow chunk items sched fuel retries made).merged = none := by
  intro fuel
  induction fuel with
  | zero => exact fun retries made hsum hfail => ⟨rfl, rfl⟩
  | succ fuel ih =>
    intro retries made hsum hfail
    have hf : attemptSuccess headerRow chunk items (sched retries) = none :=
      hfail retries (by omega)
    by_cases hgt : MAX_RETRIES < retries + 1
    · have hfuel : fuel = 0 := by omega
      subst hfuel
      constructor <;> simp [attemptLoop, hf, if_pos hgt]
    · obtain ⟨ha, hm⟩ := ih (retries + 1)
        (made || (attemptReturns (sched retries) && decide (retries = 0)))
        (by omega) hfail
      simp only [attemptLoop, hf, if_neg hgt]
      exact ⟨by rw [ha], hm⟩

/-- Claim C2: a batch that needs AI lookup and whose every attempt fails is
submitted exactly `MAX_RETRIES + 1 = 4` times, after which the batch's
original rows are appended unchanged and exactly its batch number is
recorded in the skipped list. -/
theorem c2_exhausted_batch_retry_bound :
    ∀ (headerRow : List String) (chunk : List (List String))
      (sched : ℕ → AttemptOutcome) (n : ℕ),
    itemsRequiringAiLookup chunk ≠ [] →
    (∀ k, k < MAX_RETRIES + 1 →
      attemptSuccess headerRow chunk (itemsRequiringAiLookup chunk) (sched k) = none) →
    MAX_RETRIES = 3
    ∧ (processBatch headerRow chunk sched n).attempts = MAX_RETRIES + 1
    ∧ (processBatch headerRow chunk sched n).outRows = chunk
    ∧ (processBatch headerRow chunk sched n).skipped = [n] := by
  intro headerRow chunk sched n hne hfail
  obtain ⟨ha, hm⟩ := attemptLoop_all_fail headerRow chunk
    (itemsRequiringAiLookup chunk) sched (MAX_RETRIES + 1) 0 false (by omega) hfail
  have hempty : ¬ ((itemsRequiringAiLookup chunk).isEmpty = true) := by
    simpa [List.isEmpty_iff] using hne
  refine ⟨rfl, ?_, ?_, ?_⟩ <;>
    simp only [processBatch, if_neg hempty, hm, ha]

/-- Witness for C2 at a concrete batch: one row with a missing URL and a
schedule on which `generateContent` always throws. -/
theorem c2_exhausted_batch_retry_bound_witness :
    MAX_RETRIES = 3
    ∧ (processBatch ["Name", "Email", "URL"] [["Acme", "e", ""]]
        (fun _ => AttemptOutcome.transportFail) 1).attempts = MAX_RETRIES + 1
    ∧ (processBatch ["Name", "Email", "URL"] [["Acme", "e", ""]]
        (fun _ => AttemptOutcome.transportFail) 1).outRows = [["Acme", "e", ""]]
    ∧ (processBatch ["Name", "Email", "URL"] [["Acme", "e", ""]]
        (fun _ => AttemptOutcome.transportFail) 1).skipped = [1] :=
  c2_exhausted_batch_retry_bound ["Name", "Email", "URL"] [["Acme", "e", ""]]
    (fun _ => AttemptOutcome.transportFail) 1 (by decide) (fun _ _ => rfl)

/-- Claim C4: a batch whose every row's URL cell already satisfies
`isPlausibleUrl` makes no `generateContent` call at all (`attempts = 0`),
adds no request, records nothing as skipped, and its rows are appended
unchanged. -/
theorem c4_no_call_invariant :
    ∀ (headerRow : List String) (chunk : List (List String))
      (sched : ℕ → AttemptOutcome) (n : ℕ),
    (∀ row ∈ chunk, isPlausibleUrl (row.getD 2 "") = true) →
    processBatch headerRow chunk sched n = ⟨chunk, 0, 0, []⟩ := by
  intro headerRow chunk sched n hall
  have hnil : itemsRequiringAiLookup chunk = [] := by
    unfold itemsRequiringAiLookup
    rw [List.filter_eq_nil_iff]
    intro item hmem
    have hmem' : item ∈ chunk.enumFrom 0 := hmem
    have hitem := List.mem_enumFrom hmem'
    have h2 : item.2 ∈ chunk := by
      rw [hitem.2.2]
      exact List.getElem_mem _
    simpa using hall item.2 h2
  simp [processBatch, hnil]

/-- Witness for C4 at a concrete batch whose single row already has a
plausible URL. -/
theorem c4_no_call_invariant_witness :
    processBatch ["Name", "Email", "URL"] [["Acme", "e", "example.com"]]
        (fun _ => AttemptOutcome.transportFail) 7
      = ⟨[["Acme", "e", "example.com"]], 0, 0, []⟩ :=
  c4_no_call_invariant ["Name", "Email", "URL"] [["Acme", "e", "example.com"]]
    (fun _ => AttemptOutcome.transportFail) 7 (by decide)

/- Order preservation machinery (claim C3). -/

theorem agreesOffUrl_refl (r : List String) : agreesOffUrl r r :=
  fun _ _ => rfl

theorem chunkAgrees_refl (c : List (List String)) : chunkAgrees c c :=
  ⟨rfl, fun _ => agreesOffUrl_refl _⟩

theorem chunkAgrees_set {c acc : List (List String)} (h : chunkAgrees c acc)
    (i : ℕ) (u : String) :
    chunkAgrees c (acc.set i (setUrlCell (acc.getD i []) u)) := by
  obtain ⟨hl, hp⟩ := h
  refine ⟨by rw [List.length_set, hl], fun k j hj => ?_⟩
  rw [getD_set]
  by_cases hk : i = k ∧ k < acc.length
  · rw [if_pos hk]
    obtain ⟨rfl, -⟩ := hk
    rw [setUrlCell_getD_ne _ _ _ hj]
    exact hp i j hj
  · rw [if_neg hk]
    exact hp k j hj

theorem mergeFold_agrees (ps : List ((ℕ × List String) × List String)) :
    ∀ (c acc : List (List String)), chunkAgrees c acc →
    chunkAgrees c (ps.foldl
      (fun acc p => acc.set p.1.1 (setUrlCell (acc.getD p.1.1 []) (p.2.getD 2 "")))
      acc) := by
  induction ps with
  | nil => exact fun c acc h => h
  | cons p ps ih =>
    intro c acc h
    exact ih c _ (chunkAgrees_set h p.1.1 (p.2.getD 2 ""))

theorem mergeAiRowsIntoChunk_agrees (chunk : List (List String))
    (items : List (ℕ × List String)) (aiRows : List (List String)) :
    chunkAgrees chunk (mergeAiRowsIntoChunk chunk items aiRows) :=
  mergeFold_agrees (items.zip aiRows) chunk chunk (chunkAgrees_refl chunk)

theorem attemptMergeResult_agrees {headerRow : List String}
    {chunk : List (List String)} {items : List (ℕ × List String)}
    {parsedRows m : List (List String)}
    (h : attemptMergeResult headerRow chunk items parsedRows = some m) :
    chunkAgrees chunk m := by
  simp only [attemptMergeResult] at h
  split at h
  · split at h
    · rw [Option.some.injEq] at h
      subst h
      exact mergeAiRowsIntoChunk_agrees _ _ _
    · exact absurd h (by simp)
  · split at h
    · rw [Option.some.injEq] at h
      subst h
      exact mergeAiRowsIntoChunk_agrees _ _ _
    · exact absurd h (by simp)

theorem attemptSuccess_agrees {headerRow : List String}
    {chunk : List (List String)} {items : List (ℕ × List String)}
    {o : AttemptOutcome} {m : List (List String)}
    (h : attemptSuccess headerRow chunk items o = some m) :
    chunkAgrees chunk m := by
  cases o with
  | parsed rows => exact attemptMergeResult_agrees h
  | transportFail => exact absurd h (by simp [attemptSuccess])
  | badResponse => exact absurd h (by simp [attemptSuccess])

theorem attemptLoop_merged_agrees (headerRow : List String)
    (chunk : List (List String)) (items : List (ℕ × List String))
    (sched : ℕ → AttemptOutcome) :
    ∀ (fuel retries : ℕ) (made : Bool) (m : List (List String)),
    (attemptLoop headerRow chunk items sched fuel retries made).merged = some m →
    chunkAgrees chunk m := by
  intro fuel
  induction fuel with
  | zero =>
    intro retries made m h
    exact absurd h (by simp [attemptLoop])
  | succ fuel ih =>
    intro retries made m h
    simp only [attemptLoop] at h
    split at h
    · rename_i mc hs
      simp only at h
      rw [Option.some.injEq] at h
      subst h
      exact attemptSuccess_agrees hs
    · split at h
      · exact absurd h (by simp)
      · exact ih _ _ m (by simpa using h)

theorem processBatch_agrees (headerRow : List String)
    (chunk : List (List String)) (sched : ℕ → AttemptOutcome) (n : ℕ) :
    chunkAgrees chunk (processBatch headerRow chunk sched n).outRows := by
  by_cases he : (itemsRequiringAiLookup chunk).isEmpty = true
  · simp only [processBatch, if_pos he]
    exact chunkAgrees_refl chunk
  · simp only [processBatch, if_neg he]
    cases hm : (attemptLoop headerRow chunk (itemsRequiringAiLookup chunk) sched
        (MAX_RETRIES + 1) 0 false).merged with
    | some m =>
      exact attemptLoop_merged_agrees headerRow chunk _ sched _ _ _ m hm
    | none =>
      exact chunkAgrees_refl chunk

theorem chunkAgrees_append {a b c c' : List (List String)}
    (h : chunkAgrees a c) (h' : chunkAgrees b c') :
    chunkAgrees (a ++ b) (c ++ c') := by
  obtain ⟨hl, hp⟩ := h
  obtain ⟨hl', hp'⟩ := h'
  refine ⟨by simp [hl, hl'], fun i j hj => ?_⟩
  by_cases hi : i < a.length
  · rw [List.getD_append _ _ _ _ hi, List.getD_append _ _ _ _ (by omega)]
    exact hp i j hj
  · rw [List.getD_append_right _ _ _ _ (by omega),
      List.getD_append_right _ _ _ _ (by omega), hl]
    exact hp' (i - a.length) j hj

theorem runUrlBatches_agrees :
    ∀ (N : ℕ) (rows : List (List String)), rows.length ≤ N →
    ∀ (headerRow : List String) (sched : ℕ → ℕ → AttemptOutcome) (batchIdx : ℕ),
    chunkAgrees rows (runUrlBatches headerRow sched batchIdx rows).outRows := by
  intro N
  induction N with
  | zero =>
    intro rows h headerRow sched batchIdx
    have hrows : rows = [] := List.length_eq_zero.mp (by omega)
    subst hrows
    simp only [runUrlBatches]
    exact chunkAgrees_refl []
  | succ N ih =>
    intro rows h headerRow sched batchIdx
    cases rows with
    | nil =>
      simp only [runUrlBatches]
      exact chunkAgrees_refl []
    | cons row rest0 =>
      simp only [runUrlBatches]
      have h1 := processBatch_agrees headerRow ((row :: rest0).take BATCH_SIZE)
        (sched batchIdx) (batchIdx + 1)
      have h2 := ih ((row :: rest0).drop BATCH_SIZE)
        (by
          simp only [List.length_drop, List.length_cons, BATCH_SIZE]
          simp only [List.length_cons] at h
          omega)
        headerRow sched (batchIdx + 1)
      have h3 := chunkAgrees_append h1 h2
      rwa [List.take_append_drop] at h3

/-- Claim C3: the URL-finding run preserves the order and identity of the
data rows: for every input row list and every schedule of attempt outcomes
(so regardless of which rows were selected for lookup and which batches
succeeded or exhausted their retries), the output row list has the same
length, and the row at each position agrees with the input row at that same
position on every cell except possibly the URL cell. -/
theorem c3_order_preservation :
    ∀ (headerRow : List String) (sched : ℕ → ℕ → AttemptOutcome)
      (batchIdx : ℕ) (rows : List (List String)),
    chunkAgrees rows (runUrlBatches headerRow sched batchIdx rows).outRows :=
  fun headerRow sched batchIdx rows =>
    runUrlBatches_agrees rows.length rows le_rfl headerRow sched batchIdx

/- Estimator refinement machinery (claim C7). -/

theorem enumFrom_filter_map_snd {α : Type} (p : α → Bool) :
    ∀ (l : List α) (n : ℕ),
      ((l.enumFrom n).filter (fun it => p it.2)).map Prod.snd = l.filter p := by
  intro l
  induction l with
  | nil => intro n; rfl
  | cons a as ih =>
    intro n
    simp only [List.enumFrom_cons, List.filter_cons]
    by_cases hp : p a
    · simp [hp, ih (n + 1)]
    · simp [hp, ih (n + 1)]

theorem itemsRequiringAiLookup_map_snd (chunk : List (List String)) :
    (itemsRequiringAiLookup chunk).map Prod.snd
      = chunk.filter (fun r => ! isPlausibleUrl (r.getD 2 "")) := by
  unfold itemsRequiringAiLookup
  exact enumFrom_filter_map_snd (fun r => ! isPlausibleUrl (r.getD 2 "")) chunk 0

theorem itemsRequiringAiLookup_eq_nil_iff (chunk : List (List String)) :
    itemsRequiringAiLookup chunk = []
      ↔ chunk.filter (fun r => ! isPlausibleUrl (r.getD 2 "")) = [] := by
  rw [← itemsRequiringAiLookup_map_snd]
  exact (List.map_eq_nil_iff).symm

theorem filter_length_pos_iff_any {α : Type} (p : α → Bool) (l : List α) :
    0 < (l.filter p).length ↔ l.any p = true := by
  rw [List.length_pos, List.any_eq_true]
  constructor
  · intro h
    rw [Ne, List.filter_eq_nil_iff] at h
    push_neg at h
    obtain ⟨x, hx, hp⟩ := h
    exact ⟨x, hx, by simpa using hp⟩
  · rintro ⟨x, hx, hp⟩ hnil
    rw [List.filter_eq_nil_iff] at hnil
    exact hnil x hx hp

theorem attemptLoop_attempts_pos (headerRow : List String)
    (chunk : List (List String)) (items : List (ℕ × List String))
    (sched : ℕ → AttemptOutcome) (fuel retries : ℕ) (made : Bool) :
    0 < (attemptLoop headerRow chunk items sched (fuel + 1) retries made).attempts := by
  simp only [attemptLoop]
  split
  · simp
  · split
    · simp
    · simp

theorem processBatch_attempts_pos_iff (headerRow : List String)
    (chunk : List (List String)) (sched : ℕ → AttemptOutcome) (n : ℕ) :
    0 < (processBatch headerRow chunk sched n).attempts
      ↔ 0 < (chunk.filter (fun r => ! isPlausibleUrl (r.getD 2 ""))).length := by
  by_cases he : (itemsRequiringAiLookup chunk).isEmpty = true
  · have hnil : itemsRequiringAiLookup chunk = [] := List.isEmpty_iff.mp he
    have hfil : chunk.filter (fun r => ! isPlausibleUrl (r.getD 2 "")) = [] :=
      (itemsRequiringAiLookup_eq_nil_iff chunk).mp hnil
    simp only [processBatch, if_pos he]
    rw [hfil]
    simp
  · have hne : itemsRequiringAiLookup chunk ≠ [] := by
      intro hc
      exact he (by simp [hc])
    have hfil : chunk.filter (fun r => ! isPlausibleUrl (r.getD 2 "")) ≠ [] :=
      fun hc => hne ((itemsRequiringAiLookup_eq_nil_iff chunk).mpr hc)
    simp only [processBatch, if_neg he]
    constructor
    · intro _
      exact List.length_pos.mpr hfil
    · intro _
      cases hm : (attemptLoop headerRow chunk (itemsRequiringAiLookup chunk) sched
          (MAX_RETRIES + 1) 0 false).merged with
      | some m =>
        have := attemptLoop_attempts_pos headerRow chunk
          (itemsRequiringAiLookup chunk) sched MAX_RETRIES 0 false
        simpa [hm] using this
      | none =>
        have := attemptLoop_attempts_pos headerRow chunk
          (itemsRequiringAiLookup chunk) sched MAX_RETRIES 0 false
        simpa [hm] using this

theorem c7_aux :
    ∀ (N : ℕ) (rows : List (List String)), rows.length ≤ N →
    ∀ (headerRow : List String) (sched : ℕ → ℕ → AttemptOutcome) (batchIdx : ℕ),
    (runUrlBatches headerRow sched batchIdx rows).submits
        = estimateUrlRunApiRequests rows
    ∧ estimateUrlRunApiRequests rows = countBatchesNeedingLookup rows := by
  intro N
  induction N with
  | zero =>
    intro rows h headerRow sched batchIdx
    have hrows : rows = [] := List.length_eq_zero.mp (by omega)
    subst hrows
    refine ⟨?_, ?_⟩ <;>
      simp only [runUrlBatches, estimateUrlRunApiRequests, countBatchesNeedingLookup]
  | succ N ih =>
    intro rows h headerRow sched batchIdx
    cases rows with
    | nil =>
      refine ⟨?_, ?_⟩ <;>
        simp only [runUrlBatches, estimateUrlRunApiRequests, countBatchesNeedingLookup]
    | cons row rest0 =>
      have hrest : ((row :: rest0).drop BATCH_SIZE).length ≤ N := by
        simp only [List.length_drop, List.length_cons, BATCH_SIZE]
        simp only [List.length_cons] at h
        omega
      obtain ⟨ih1, ih2⟩ := ih ((row :: rest0).drop BATCH_SIZE) hrest
        headerRow sched (batchIdx + 1)
      constructor
      · simp only [runUrlBatches, estimateUrlRunApiRequests]
        rw [ih1]
        congr 1
        by_cases hpos : 0 < (((row :: rest0).take BATCH_SIZE).filter
            (fun r => ! isPlausibleUrl (r.getD 2 ""))).length
        · rw [if_pos ((processBatch_attempts_pos_iff headerRow _ (sched batchIdx)
              (batchIdx + 1)).mpr hpos), if_pos hpos]
        · rw [if_neg (fun hc => hpos ((processBatch_attempts_pos_iff headerRow _
              (sched batchIdx) (batchIdx + 1)).mp hc)), if_neg hpos]
      · simp only [estimateUrlRunApiRequests, countBatchesNeedingLookup]
        rw [ih2]
        congr 1
        by_cases hpos : 0 < (((row :: rest0).take BATCH_SIZE).filter
            (fun r => ! isPlausibleUrl (r.getD 2 ""))).length
        · rw [if_pos hpos,
            if_pos ((filter_length_pos_iff_any _ _).mp hpos)]
        · rw [if_neg hpos,
            if_neg (fun hc => hpos ((filter_length_pos_iff_any _ _).mpr hc))]

/-- Claim C7: the pre-run estimator uses the same `BATCH_SIZE`-chunking and
the same `isPlausibleUrl` filter as the real run, so for every row list and
every schedule the number of batches the real run actually submits to
`generateContent` equals the estimator's `apiRequests` total, and that
total is exactly the number of batches containing at least one row needing
lookup. -/
theorem c7_estimator_refines_run :
    ∀ (headerRow : List String) (sched : ℕ → ℕ → AttemptOutcome)
      (batchIdx : ℕ) (rows : List (List String)),
    (runUrlBatches headerRow sched batchIdx rows).submits
        = estimateUrlRunApiRequests rows
    ∧ estimateUrlRunApiRequests rows = countBatchesNeedingLookup rows :=
  fun headerRow sched batchIdx rows =>
    c7_aux rows.length rows le_rfl headerRow sched batchIdx

/- Merge frame machinery (claim C10). -/

theorem mem_enumFrom_getD {α : Type} (d : α) :
    ∀ (l : List α) (n : ℕ) (x : ℕ × α), x ∈ l.enumFrom n →
      n ≤ x.1 ∧ x.1 - n < l.length ∧ l.getD (x.1 - n) d = x.2 := by
  intro l
  induction l with
  | nil =>
    intro n x h
    simp at h
  | cons a as ih =>
    intro n x h
    rw [List.enumFrom_cons, List.mem_cons] at h
    rcases h with h | h
    · subst h
      exact ⟨le_rfl, by simp, by simp⟩
    · obtain ⟨h1, h2, h3⟩ := ih (n + 1) x h
      refine ⟨by omega, ?_, ?_⟩
      · simp only [List.length_cons]
        omega
      · have hx : x.1 - n = (x.1 - (n + 1)) + 1 := by omega
        rw [hx, List.getD_cons_succ]
        exact h3

theorem itemsRequiringAiLookup_mem_spec (chunk : List (List String)) :
    ∀ p ∈ itemsRequiringAiLookup chunk,
      p.1 < chunk.length ∧ chunk.getD p.1 [] = p.2 := by
  intro p hp
  have hp' : p ∈ chunk.enumFrom 0 := List.mem_of_mem_filter hp
  obtain ⟨-, h2, h3⟩ := mem_enumFrom_getD [] chunk 0 p hp'
  rw [Nat.sub_zero] at h2 h3
  exact ⟨h2, h3⟩

theorem itemsRequiringAiLookup_fst_nodup (chunk : List (List String)) :
    ((itemsRequiringAiLookup chunk).map Prod.fst).Nodup := by
  have hsub : (itemsRequiringAiLookup chunk).Sublist chunk.enum :=
    List.filter_sublist _
  have hsub2 := hsub.map Prod.fst
  have hfst : chunk.enum.map Prod.fst = List.range chunk.length :=
    List.enum_map_fst chunk
  exact List.Nodup.sublist (hfst ▸ hsub2) (List.nodup_range _)

theorem mergeFold_frame :
    ∀ (ps : List ((ℕ × List String) × List String))
      (acc : List (List String)) (i : ℕ),
      (∀ q ∈ ps, q.1.1 ≠ i) →
      ((ps.foldl
          (fun acc p => acc.set p.1.1 (setUrlCell (acc.getD p.1.1 []) (p.2.getD 2 "")))
          acc).getD i [])
        = acc.getD i [] := by
  intro ps
  induction ps with
  | nil => intro acc i _; rfl
  | cons q ps ih =>
    intro acc i h
    rw [List.foldl_cons, ih _ i (fun q' hq' => h q' (List.mem_cons_of_mem _ hq')),
      getD_set, if_neg (fun hc => (h q (List.mem_cons_self _ _)) hc.1)]

theorem mergeFold_length :
    ∀ (ps : List ((ℕ × List String) × List String)) (acc : List (List String)),
      (ps.foldl
          (fun acc p => acc.set p.1.1 (setUrlCell (acc.getD p.1.1 []) (p.2.getD 2 "")))
          acc).length = acc.length := by
  intro ps
  induction ps with
  | nil => intro acc; rfl
  | cons q ps ih =>
    intro acc
    rw [List.foldl_cons, ih, List.length_set]

theorem mergeFold_set_spec :
    ∀ (items : List (ℕ × List String)) (aiRows : List (List String))
      (acc : List (List String)),
      ((items.map Prod.fst).Nodup) →
      (∀ p ∈ items, p.1 < acc.length) →
      ∀ k, k < items.length → k < aiRows.length →
      (((items.zip aiRows).foldl
          (fun acc p => acc.set p.1.1 (setUrlCell (acc.getD p.1.1 []) (p.2.getD 2 "")))
          acc).getD (items.getD k (0, [])).1 [])
        = setUrlCell (acc.getD (items.getD k (0, [])).1 [])
            ((aiRows.getD k []).getD 2 "") := by
  intro items
  induction items with
  | nil =>
    intro aiRows acc _ _ k hk1 _
    simp at hk1
  | cons it items ih =>
    intro aiRows acc hnd hb k hk1 hk2
    cases aiRows with
    | nil => simp at hk2
    | cons a as =>
      rw [List.zip_cons_cons, List.foldl_cons]
      have hnd2 : it.1 ∉ items.map Prod.fst ∧ (items.map Prod.fst).Nodup :=
        List.nodup_cons.mp (by simpa using hnd)
      cases k with
      | zero =>
        simp only [List.getD_cons_zero]
        rw [mergeFold_frame (items.zip as) _ it.1 ?_]
        · rw [getD_set, if_pos ⟨rfl, hb it (List.mem_cons_self _ _)⟩]
        · intro q hq hc
          have hq1 : q.1 ∈ items := (List.of_mem_zip hq).1
          exact hnd2.1 (hc ▸ List.mem_map_of_mem Prod.fst hq1)
      | succ k' =>
        simp only [List.getD_cons_succ]
        have hb' : ∀ p ∈ items,
            p.1 < (acc.set it.1 (setUrlCell (acc.getD it.1 []) (a.getD 2 ""))).length :=
          fun p hp => by
            rw [List.length_set]
            exact hb p (List.mem_cons_of_mem _ hp)
        rw [ih as _ hnd2.2 hb' k' (by simpa using hk1) (by simpa using hk2)]
        have hidx_mem : (items.getD k' (0, [])).1 ∈ items.map Prod.fst := by
          have hm : items.getD k' (0, []) ∈ items := by
            rw [List.getD_eq_getElem _ _ (by simpa using hk1)]
            exact List.getElem_mem _
          exact List.mem_map_of_mem _ hm
        rw [getD_set, if_neg ?_]
        intro hc
        exact hnd2.1 (hc.1 ▸ hidx_mem)

/-- Claim C10: when a parsed AI response of the right row count is merged
into a batch, the merge is exactly a frame-preserving URL write: the chunk
keeps its length; every row not selected for lookup is returned verbatim;
the row of the k-th lookup item becomes its padded original with cell 2
overwritten by the string at index 2 of the k-th response row; and no cell
outside column 2 of any row changes. -/
theorem c10_merge_frame :
    ∀ (chunk aiRows : List (List String)),
    aiRows.length = (itemsRequiringAiLookup chunk).length →
    mergeFrameSpec chunk aiRows := by
  intro chunk aiRows hlen
  unfold mergeFrameSpec mergeAiRowsIntoChunk
  refine ⟨mergeFold_length _ _, ?_, ?_, ?_⟩
  · intro i hi
    apply mergeFold_frame
    intro q hq hc
    have hq1 : q.1 ∈ itemsRequiringAiLookup chunk := (List.of_mem_zip hq).1
    exact hi (hc ▸ List.mem_map_of_mem Prod.fst hq1)
  · intro k hk
    exact mergeFold_set_spec (itemsRequiringAiLookup chunk) aiRows chunk
      (itemsRequiringAiLookup_fst_nodup chunk)
      (fun p hp => (itemsRequiringAiLookup_mem_spec chunk p hp).1)
      k hk (by omega)
  · intro i j hj
    exact (mergeAiRowsIntoChunk_agrees chunk (itemsRequiringAiLookup chunk) aiRows).2 i j hj

/-- Witness for C10 at a concrete batch: two rows, one needing lookup, and
a one-row AI response. -/
theorem c10_merge_frame_witness :
    mergeFrameSpec [["Acme", "e", ""], ["B", "b", "b.com"]]
      [["Acme", "e", "acme.com"]] :=
  c10_merge_frame [["Acme", "e", ""], ["B", "b", "b.com"]]
    [["Acme", "e", "acme.com"]] (by decide)

/- Dossier-generation lemmas (claim C5). -/

theorem runDossierRows_length (gen : ℕ → Option String) :
    ∀ (i : ℕ) (rows : List (List String)),
      (runDossierRows gen i rows).1.length = rows.length := by
  intro i rows
  induction rows generalizing i with
  | nil => rfl
  | cons row rest ih =>
    simp only [runDossierRows]
    by_cases hname : jsTrim (row.getD 0 "") = ""
    · rw [if_pos hname]
      simp [ih (i + 1)]
    · rw [if_neg hname]
      cases hg : gen i with
      | some d => simp [ih (i + 1)]
      | none => simp [ih (i + 1)]

theorem runDossierRows_calls_lb (gen : ℕ → Option String) :
    ∀ (rows : List (List String)) (i m : ℕ),
      m ∈ (runDossierRows gen i rows).2 → i ≤ m := by
  intro rows
  induction rows with
  | nil =>
    intro i m h
    simp [runDossierRows] at h
  | cons row rest ih =>
    intro i m h
    simp only [runDossierRows] at h
    by_cases hname : jsTrim (row.getD 0 "") = ""
    · rw [if_pos hname] at h
      have := ih (i + 1) m h
      omega
    · rw [if_neg hname] at h
      cases hg : gen i with
      | some d =>
        rw [hg] at h
        simp only [List.mem_cons] at h
        rcases h with h | h
        · omega
        · have := ih (i + 1) m h
          omega
      | none =>
        rw [hg] at h
        simp only [List.mem_cons] at h
        rcases h with h | h
        · omega
        · have := ih (i + 1) m h
          omega

theorem runDossierRows_skip_spec (gen : ℕ → Option String) :
    ∀ (rows : List (List String)) (i k : ℕ), k < rows.length →
      jsTrim ((rows.getD k []).getD 0 "") = "" →
      (runDossierRows gen i rows).1.getD k [] = rows.getD k []
      ∧ (i + k) ∉ (runDossierRows gen i rows).2 := by
  intro rows
  induction rows with
  | nil =>
    intro i k hk
    simp at hk
  | cons row rest ih =>
    intro i k hk hname
    cases k with
    | zero =>
      simp only [List.getD_cons_zero] at hname ⊢
      simp only [runDossierRows, if_pos hname]
      refine ⟨rfl, fun hmem => ?_⟩
      have := runDossierRows_calls_lb gen rest (i + 1) (i + 0) hmem
      omega
    | succ k' =>
      simp only [List.getD_cons_succ] at hname ⊢
      obtain ⟨h1, h2⟩ := ih (i + 1) k' (by simpa using hk) hname
      constructor
      · simp only [runDossierRows]
        by_cases hn : jsTrim (row.getD 0 "") = ""
        · rw [if_pos hn]
          simpa using h1
        · rw [if_neg hn]
          cases hg : gen i with
          | some d => simpa using h1
          | none => simpa using h1
      · simp only [runDossierRows]
        by_cases hn : jsTrim (row.getD 0 "") = ""
        · rw [if_pos hn]
          intro hmem
          exact h2 (by
            have heq : (i + 1) + k' = i + (k' + 1) := by omega
            rw [heq]
            exact hmem)
        · rw [if_neg hn]
          cases hg : gen i with
          | some d =>
            intro hmem
            simp only [List.mem_cons] at hmem
            rcases hmem with hmem | hmem
            · omega
            · exact h2 (by
                have heq : (i + 1) + k' = i + (k' + 1) := by omega
                rw [heq]
                exact hmem)
          | none =>
            intro hmem
            simp only [List.mem_cons] at hmem
            rcases hmem with hmem | hmem
            · omega
            · exact h2 (by
                have heq : (i + 1) + k' = i + (k' + 1) := by omega
                rw [heq]
                exact hmem)

/-- Claim C5 counterexample: a dossier-generation run over a dataset whose
first data row is missing its organization name ends with status
`completed`, not `error`; the generator is invoked only for the named row
(index 1) and the nameless row is returned verbatim — the missing name is
not surfaced as an operation-level error. -/
theorem c5_counterexample_missing_name_not_error :
    (handleGenerateFullDescriptions
        [["Name", "Email", "URL"], ["", "e", "u"], ["Acme", "e", ""]]
        (fun _ => some "DOSSIER")).map (fun r => r.2.1) = some OpStatus.completed
    ∧ (handleGenerateFullDescriptions
        [["Name", "Email", "URL"], ["", "e", "u"], ["Acme", "e", ""]]
        (fun _ => some "DOSSIER")).map (fun r => r.2.2) = some [1]
    ∧ (handleGenerateFullDescriptions
        [["Name", "Email", "URL"], ["", "e", "u"], ["Acme", "e", ""]]
        (fun _ => some "DOSSIER")).map (fun r => r.1.getD 1 []) = some ["", "e", "u"] := by
  decide

/-- Claim C5 as amended: a data row whose trimmed organization name is
empty is skipped — the generator is never invoked for it, its row is
returned unchanged, and the run continues over the remaining rows — and the
dossier run's final status is `completed` for every accepted dataset,
missing names notwithstanding. -/
theorem c5_amended_missing_name_skipped :
    (∀ (data : List (List String)) (gen : ℕ → Option String),
      2 ≤ data.length →
      (handleGenerateFullDescriptions data gen).map (fun r => r.2.1)
        = some OpStatus.completed)
    ∧ (∀ (gen : ℕ → Option String) (i : ℕ) (rows : List (List String)) (k : ℕ),
      k < rows.length →
      jsTrim ((rows.getD k []).getD 0 "") = "" →
      (runDossierRows gen i rows).1.getD k [] = rows.getD k []
      ∧ (i + k) ∉ (runDossierRows gen i rows).2
      ∧ (runDossierRows gen i rows).1.length = rows.length) := by
  constructor
  · intro data gen h2
    simp only [handleGenerateFullDescriptions, if_neg (by omega : ¬ data.length < 2)]
    rfl
  · intro gen i rows k hk hname
    obtain ⟨h1, h2⟩ := runDossierRows_skip_spec gen rows i k hk hname
    exact ⟨h1, h2, runDossierRows_length gen i rows⟩

/-- Witness for the amended C5 at a concrete dataset whose first data row
has an empty organization name. -/
theorem c5_amended_missing_name_skipped_witness :
    (handleGenerateFullDescriptions
        [["Name", "Email", "URL"], ["", "e", "u"], ["Acme", "e", ""]]
        (fun _ => some "DOSSIER")).map (fun r => r.2.1) = some OpStatus.completed
    ∧ ((runDossierRows (fun _ => some "DOSSIER") 0 [["", "e", "u"], ["Acme", "e", ""]]).1.getD 0 []
        = [["", "e", "u"], ["Acme", "e", ""]].getD 0 []
      ∧ (0 + 0) ∉ (runDossierRows (fun _ => some "DOSSIER") 0 [["", "e", "u"], ["Acme", "e", ""]]).2
      ∧ (runDossierRows (fun _ => some "DOSSIER") 0 [["", "e", "u"], ["Acme", "e", ""]]).1.length
        = ([["", "e", "u"], ["Acme", "e", ""]] : List (List String)).length) :=
  ⟨c5_amended_missing_name_skipped.1
      [["Name", "Email", "URL"], ["", "e", "u"], ["Acme", "e", ""]]
      (fun _ => some "DOSSIER") (by decide),
   c5_amended_missing_name_skipped.2
      (fun _ => some "DOSSIER") 0 [["", "e", "u"], ["Acme", "e", ""]] 0
      (by decide) (by decide)⟩

end AiCsvUrlFinder
